import Mathlib

/-!
# VulnRelay vulnerability collection engine: a shallow embedding

This file embeds the core of the VulnRelay service — the vulnerability
collection engine (`internal/engine`) and the TTL cache
(`internal/cache/cache.go`) — as pure Lean definitions, and proves the
specification's claims about them.

Modelling conventions:
* Go `time.Time` / `time.Duration` become `Nat` (an abstract monotone clock;
  the unit is irrelevant to every property proved here).  Each operation that
  calls `time.Now()` in Go takes the current instant `now` as an argument.
* Go maps become association lists with an overwrite-on-insert `mapSet` and a
  first-match `mapFind`; a Go map never holds two bindings of one key, which
  corresponds to the `Nodup` key invariant that `mapSet` preserves.
* The external collaborators (`CloudProvider.DiscoverImages`,
  `VulnerabilitySource.GetImageVulnerabilities`) are parameters: the discovery
  outcome of a cycle is an `Except String (List ImageInfo)` value, and the
  source is a function `String → Except String ImageVulnerability`.
* Logging, mutexes and the `logrus` logger are dropped: logging has no effect
  on the data, and every shared-state mutation in the Go code is serialized by
  a mutex (`mu` around `newVulnerabilityData`, the cache's `RWMutex`, the
  engine's `mutex`), so the per-cycle fan-out is modelled as a fold over the
  discovered images.  The bounded-concurrency discipline of the fan-out
  itself (the `semaphore` channel of capacity 10 plus `sync.WaitGroup`) is
  modelled separately as a labelled transition system (`FanoutStep`).
* `getImageVulnerability` additionally returns the number of calls it made to
  the vulnerability source (0 or 1), so that cache-suppression claims can be
  stated; this component is an observation, not state.
-/

namespace VulnRelay

/-- `internal/types`: a single vulnerability finding.  Field for field the Go
struct `VulnerabilityFinding`; the CVSS score (`float64`) is modelled as
`Float`. -/
structure VulnerabilityFinding where
  name : String
  description : String
  severity : String
  packageName : String
  packageVersion : String
  fixVersion : String
  status : String
  uri : String
  exploitAvailable : String
  fixAvailable : String
  score : Float
  vulnType : String

/-- `internal/types`: vulnerability information for one container image
(Go struct `ImageVulnerability`).  `vulnerabilities` is the severity→count
map. -/
structure ImageVulnerability where
  imageURI : String
  repository : String
  tag : String
  vulnerabilities : List (String × Int)
  totalCount : Int
  scanStatus : String
  lastScanTime : Option String
  findings : List VulnerabilityFinding

/-- `internal/types`: a discovered image with its placement metadata
(Go struct `ImageInfo`). -/
structure ImageInfo where
  uri : String
  namespaceName : String
  workload : String
  workloadType : String

/-- `internal/types`: snapshot entry combining the scan result with the
discovery metadata (Go struct `ImageVulnerabilityData`, which embeds
`*ImageVulnerability` and `ImageInfo`). -/
structure ImageVulnerabilityData where
  imageVulnerability : ImageVulnerability
  imageInfo : ImageInfo

/-- Lookup in an association list modelling a Go map: first binding of the
key, if any. -/
def mapFind {α : Type} (m : List (String × α)) (k : String) : Option α :=
  match m with
  | [] => none
  | (k1, v) :: rest => if k1 = k then some v else mapFind rest k

/-- Insertion into an association list modelling a Go map: overwrite the
existing binding of the key, or append a fresh one. -/
def mapSet {α : Type} (m : List (String × α)) (k : String) (v : α) :
    List (String × α) :=
  match m with
  | [] => [(k, v)]
  | (k1, v1) :: rest =>
      if k1 = k then (k, v) :: rest else (k1, v1) :: mapSet rest k v

/-- `internal/cache/cache.go`: a cache entry wraps the data with its absolute
expiry instant (Go struct `CacheEntry`). -/
structure CacheEntry where
  data : ImageVulnerability
  expiresAt : Nat

/-- `internal/cache/cache.go`: the TTL cache (Go struct
`VulnerabilityCache`; the mutex and logger are dropped). -/
structure VulnerabilityCache where
  cache : List (String × CacheEntry)
  ttl : Nat

/-- `NewVulnerabilityCache`: empty map, TTL fixed at 30 minutes
(`30 * time.Minute` in nanoseconds). -/
def NewVulnerabilityCache : VulnerabilityCache :=
  { cache := [], ttl := 1800000000000 }

/-- `VulnerabilityCache.Get`: return the entry's data unless the entry is
absent or `time.Now().After(entry.ExpiresAt)` holds (strict comparison); an
expired entry is reported as a miss but is *not* deleted. -/
def VulnerabilityCache.get (c : VulnerabilityCache) (now : Nat)
    (imageURI : String) : Option ImageVulnerability :=
  match mapFind c.cache imageURI with
  | none => none
  | some entry => if now > entry.expiresAt then none else some entry.data

/-- `VulnerabilityCache.Get`, with the post-state made explicit: the Go method
holds only a read lock and performs no mutation, so the cache after a `Get` is
the cache before it. -/
def VulnerabilityCache.getS (c : VulnerabilityCache) (now : Nat)
    (imageURI : String) : Option ImageVulnerability × VulnerabilityCache :=
  (c.get now imageURI, c)

/-- `VulnerabilityCache.Set`: unconditionally overwrite the binding, with
`ExpiresAt = time.Now().Add(c.ttl)`. -/
def VulnerabilityCache.set (c : VulnerabilityCache) (now : Nat)
    (imageURI : String) (vulnerability : ImageVulnerability) :
    VulnerabilityCache :=
  { c with cache := mapSet c.cache imageURI ⟨vulnerability, now + c.ttl⟩ }

/-- `VulnerabilityCache.cleanup`: delete every entry with
`now.After(entry.ExpiresAt)` (strict), keep the rest. -/
def VulnerabilityCache.cleanup (c : VulnerabilityCache) (now : Nat) :
    VulnerabilityCache :=
  { c with cache := c.cache.filter (fun p => !(decide (now > p.2.expiresAt))) }

/-- `VulnerabilityCache.Stats`: total entry count, and the count of entries
that are expired (`now.After(entry.ExpiresAt)`, strict) but still present. -/
def VulnerabilityCache.stats (c : VulnerabilityCache) (now : Nat) :
    Nat × Nat :=
  (c.cache.length,
   (c.cache.filter (fun p => decide (now > p.2.expiresAt))).length)

/-- `internal/engine`: engine configuration (Go struct `Config`).  Note that
the fetch-concurrency bound is *not* a field of this struct: the semaphore
capacity is the literal `10` inside `collectVulnerabilities`. -/
structure Config where
  mode : String
  port : Int
  ecrAccountID : String
  ecrRegion : String
  imageListFile : String
  scrapeInterval : Nat
  mockMode : Bool

/-- `internal/engine`: the engine's mutable state (Go struct `Engine`; the
providers become per-cycle parameters, the mutex and logger are dropped). -/
structure Engine where
  vulnerabilityData : List (String × ImageVulnerabilityData)
  lastCollectionTime : Nat
  cache : VulnerabilityCache

/-- `NewEngine`: empty snapshot, fresh cache; `lastCollectionTime` is the zero
`time.Time`. -/
def NewEngine : Engine :=
  { vulnerabilityData := [], lastCollectionTime := 0,
    cache := NewVulnerabilityCache }

/-- `Engine.getImageVulnerability`: try the cache first; on a hit return the
cached result; on a miss call the vulnerability source, and on success cache
the result.  The third component counts the calls made to the source (0 or
1). -/
def getImageVulnerability (c : VulnerabilityCache)
    (src : String → Except String ImageVulnerability) (now : Nat)
    (imageURI : String) :
    Except String ImageVulnerability × VulnerabilityCache × Nat :=
  match c.get now imageURI with
  | some cachedVuln => (Except.ok cachedVuln, c, 0)
  | none =>
      match src imageURI with
      | Except.error e => (Except.error e, c, 1)
      | Except.ok vuln => (Except.ok vuln, c.set now imageURI vuln, 1)

/-- The body of one worker goroutine of `Engine.collectVulnerabilities`: fetch
the image's vulnerabilities; on success insert the result into the new
snapshot under the image's URI (under `mu`); on failure log and skip the
image.  The fan-out's insertions are serialized by `mu`, so the per-cycle loop
is their fold. -/
def collectStep (src : String → Except String ImageVulnerability) (now : Nat)
    (acc : List (String × ImageVulnerabilityData) × VulnerabilityCache)
    (imgInfo : ImageInfo) :
    List (String × ImageVulnerabilityData) × VulnerabilityCache :=
  match getImageVulnerability acc.2 src now imgInfo.uri with
  | (Except.ok vuln, c2, _) =>
      (mapSet acc.1 imgInfo.uri ⟨vuln, imgInfo⟩, c2)
  | (Except.error _, c2, _) => (acc.1, c2)

/-- `Engine.collectVulnerabilities`: discover images; on discovery failure
return the error with the engine untouched; otherwise build a fresh snapshot
map from the per-image outcomes and publish it together with
`lastCollectionTime = time.Now()`.  Returns the engine after the cycle and the
cycle-level error, if any. -/
def collectVulnerabilities (e : Engine)
    (discover : Except String (List ImageInfo))
    (src : String → Except String ImageVulnerability) (now : Nat) :
    Engine × Option String :=
  match discover with
  | Except.error err => (e, some err)
  | Except.ok images =>
      let st := images.foldl (collectStep src now) ([], e.cache)
      ({ vulnerabilityData := st.1, lastCollectionTime := now,
         cache := st.2 }, none)

/-- `Engine.GetVulnerabilityData`: the published snapshot (a copy) and the
time of the last collection. -/
def GetVulnerabilityData (e : Engine) :
    List (String × ImageVulnerabilityData) × Nat :=
  (e.vulnerabilityData, e.lastCollectionTime)

/-- One scheduled cycle of `Engine.Start`: the discovery outcome, the
vulnerability source's behaviour, and the wall-clock instant of the cycle. -/
structure CycleInput where
  discover : Except String (List ImageInfo)
  src : String → Except String ImageVulnerability
  now : Nat

/-- `Engine.Start` keeps the engine returned by `collectVulnerabilities`
whether or not the cycle reported an error (a failed cycle leaves the engine
unchanged and is merely logged). -/
def runCycle (e : Engine) (inp : CycleInput) : Engine :=
  (collectVulnerabilities e inp.discover inp.src inp.now).1

/-- The successive engine states produced by the cycle loop of
`Engine.Start`. -/
def engineTrace (e : Engine) : List CycleInput → List Engine
  | [] => []
  | inp :: rest =>
      runCycle e inp :: engineTrace (runCycle e inp) rest

/-! ## The bounded fan-out of `collectVulnerabilities`

`collectVulnerabilities` spawns one goroutine per image; each goroutine first
acquires a slot of `semaphore := make(chan struct{}, 10)` and releases it when
it finishes; `wg.Wait()` blocks the cycle until every goroutine is done.  The
discipline is modelled as a labelled transition system over the multiset of
worker states. -/

/-- The lifecycle of one per-image worker goroutine: not yet holding a
semaphore slot / holding a slot (its source call in flight) / finished. -/
inductive TaskState where
  | notStarted
  | inFlight
  | finished
deriving DecidableEq

/-- The capacity of the worker semaphore: the literal `10` in
`semaphore := make(chan struct{}, 10)`. -/
def semCapacity : Nat := 10

/-- Number of workers currently holding a semaphore slot. -/
def countInFlight : List TaskState → Nat
  | [] => 0
  | TaskState.inFlight :: ts => countInFlight ts + 1
  | _ :: ts => countInFlight ts

/-- One scheduler step of the fan-out: a worker acquires a semaphore slot
(`semaphore <- struct{}{}`, enabled only while fewer than `semCapacity` slots
are held), or a worker completes and releases its slot
(`defer func() { <-semaphore }()`). -/
inductive FanoutStep : List TaskState → List TaskState → Prop where
  | acquire (l r : List TaskState)
      (h : countInFlight (l ++ TaskState.notStarted :: r) < semCapacity) :
      FanoutStep (l ++ TaskState.notStarted :: r)
        (l ++ TaskState.inFlight :: r)
  | release (l r : List TaskState) :
      FanoutStep (l ++ TaskState.inFlight :: r)
        (l ++ TaskState.finished :: r)

/-- The states the fan-out over `n` images can reach from its initial state
(all workers spawned, none holding a slot). -/
def FanoutReachable (n : Nat) (s : List TaskState) : Prop :=
  Relation.ReflTransGen FanoutStep (List.replicate n TaskState.notStarted) s

/-- `wg.Wait()` lets the cycle proceed to snapshot publication exactly when
every worker has finished. -/
def publishEnabled (s : List TaskState) : Prop :=
  ∀ t ∈ s, t = TaskState.finished

/-! ## Association-list map lemmas -/

theorem mapFind_mapSet {α : Type} (m : List (String × α)) (k k1 : String)
    (v : α) :
    mapFind (mapSet m k v) k1 = if k = k1 then some v else mapFind m k1 := by
  induction m with
  | nil =>
      by_cases h : k = k1 <;> simp [mapSet, mapFind, h]
  | cons p rest ih =>
      obtain ⟨k2, v2⟩ := p
      by_cases h2 : k2 = k
      · subst h2
        by_cases h : k2 = k1 <;> simp [mapSet, mapFind, h]
      · by_cases h : k2 = k1
        · subst h
          have hkk1 : ¬ k = k2 := fun hc => h2 hc.symm
          simp [mapSet, mapFind, h2, hkk1]
        · simp [mapSet, mapFind, h2, h, ih]

theorem mapFind_mapSet_self {α : Type} (m : List (String × α)) (k : String)
    (v : α) : mapFind (mapSet m k v) k = some v := by
  simp [mapFind_mapSet]

theorem mapFind_mapSet_ne {α : Type} (m : List (String × α)) {k k1 : String}
    (v : α) (h : k ≠ k1) : mapFind (mapSet m k v) k1 = mapFind m k1 := by
  simp [mapFind_mapSet, h]

theorem length_mapSet_of_find_none {α : Type} (m : List (String × α))
    {k : String} (v : α) (h : mapFind m k = none) :
    (mapSet m k v).length = m.length + 1 := by
  induction m with
  | nil => simp [mapSet]
  | cons p rest ih =>
      obtain ⟨k2, v2⟩ := p
      by_cases h2 : k2 = k
      · simp [mapFind, h2] at h
      · simp [mapFind, h2] at h
        simp [mapSet, h2, ih h]

theorem mapFind_mem {α : Type} {m : List (String × α)} {k : String} {v : α}
    (h : mapFind m k = some v) : (k, v) ∈ m := by
  induction m with
  | nil => simp [mapFind] at h
  | cons p rest ih =>
      obtain ⟨k2, v2⟩ := p
      by_cases h2 : k2 = k
      · subst h2
        simp [mapFind] at h
        simp [h]
      · simp [mapFind, h2] at h
        exact List.mem_cons_of_mem _ (ih h)

theorem mapFind_filter_none {α : Type} (m : List (String × α)) (k : String)
    (keep : String × α → Bool) (h : mapFind m k = none) :
    mapFind (m.filter keep) k = none := by
  induction m with
  | nil => simp [mapFind]
  | cons p rest ih =>
      obtain ⟨k2, v2⟩ := p
      by_cases h2 : k2 = k
      · simp [mapFind, h2] at h
      · simp [mapFind, h2] at h
        cases hk : keep (k2, v2) <;>
          simp [List.filter_cons, hk, mapFind, h2, ih h]

theorem mapFind_notMem_keys {α : Type} {m : List (String × α)} {k : String}
    (h : k ∉ m.map Prod.fst) : mapFind m k = none := by
  induction m with
  | nil => simp [mapFind]
  | cons p rest ih =>
      obtain ⟨k2, v2⟩ := p
      rw [List.map_cons] at h
      have h2 : ¬ k2 = k := fun hc => h (by rw [hc]; exact List.mem_cons_self _ _)
      have hrest : k ∉ rest.map Prod.fst :=
        fun hc => h (List.mem_cons_of_mem _ hc)
      simp [mapFind, h2, ih hrest]

theorem mapFind_filter_nodup {α : Type} (m : List (String × α)) (k : String)
    (keep : String × α → Bool) (hnd : (m.map Prod.fst).Nodup) :
    mapFind (m.filter keep) k =
      match mapFind m k with
      | none => none
      | some e => if keep (k, e) then some e else none := by
  induction m with
  | nil => simp [mapFind]
  | cons p rest ih =>
      obtain ⟨k2, v2⟩ := p
      rw [List.map_cons, List.nodup_cons] at hnd
      by_cases h2 : k2 = k
      · subst h2
        have hrest : mapFind rest k2 = none := mapFind_notMem_keys hnd.1
        cases hk : keep (k2, v2) <;>
          simp [List.filter_cons, hk, mapFind,
            mapFind_filter_none rest k2 keep hrest]
      · cases hk : keep (k2, v2) <;>
          simp [List.filter_cons, hk, mapFind, h2, ih hnd.2]

theorem mem_keys_mapSet {α : Type} {m : List (String × α)} {k k1 : String}
    {v : α} (h : k1 ∈ (mapSet m k v).map Prod.fst) :
    k1 ∈ m.map Prod.fst ∨ k1 = k := by
  induction m with
  | nil =>
      rw [show mapSet ([] : List (String × α)) k v = [(k, v)] from rfl] at h
      simp at h
      exact Or.inr h
  | cons p rest ih =>
      obtain ⟨k2, v2⟩ := p
      by_cases h2 : k2 = k
      · subst h2
        rw [show mapSet ((k2, v2) :: rest) k2 v = (k2, v) :: rest from by
              simp [mapSet],
            List.map_cons, List.mem_cons] at h
        rcases h with h | h
        · exact Or.inr h
        · exact Or.inl (by rw [List.map_cons]; exact List.mem_cons_of_mem _ h)
      · rw [show mapSet ((k2, v2) :: rest) k v = (k2, v2) :: mapSet rest k v
              from by simp [mapSet, h2],
            List.map_cons, List.mem_cons] at h
        rcases h with h | h
        · exact Or.inl (by rw [List.map_cons, h]; exact List.mem_cons_self _ _)
        · rcases ih h with h3 | h3
          · exact Or.inl (by rw [List.map_cons]; exact List.mem_cons_of_mem _ h3)
          · exact Or.inr h3

theorem nodup_keys_mapSet {α : Type} {m : List (String × α)} (k : String)
    (v : α) (hnd : (m.map Prod.fst).Nodup) :
    ((mapSet m k v).map Prod.fst).Nodup := by
  induction m with
  | nil => simp [mapSet]
  | cons p rest ih =>
      obtain ⟨k2, v2⟩ := p
      rw [List.map_cons, List.nodup_cons] at hnd
      by_cases h2 : k2 = k
      · subst h2
        rw [show mapSet ((k2, v2) :: rest) k2 v = (k2, v) :: rest from by
              simp [mapSet],
            List.map_cons, List.nodup_cons]
        exact ⟨hnd.1, hnd.2⟩
      · rw [show mapSet ((k2, v2) :: rest) k v = (k2, v2) :: mapSet rest k v
              from by simp [mapSet, h2],
            List.map_cons, List.nodup_cons]
        refine ⟨?_, ih hnd.2⟩
        intro hmem
        rcases mem_keys_mapSet hmem with h3 | h3
        · exact hnd.1 h3
        · exact h2 h3

/-! ## Cache lemmas -/

theorem get_set_self (c : VulnerabilityCache) (now1 now2 : Nat) (k : String)
    (v : ImageVulnerability) :
    (c.set now1 k v).get now2 k =
      if now2 > now1 + c.ttl then none else some v := by
  simp [VulnerabilityCache.get, VulnerabilityCache.set, mapFind_mapSet_self]

theorem get_set_ne (c : VulnerabilityCache) (now1 now2 : Nat) {k k1 : String}
    (v : ImageVulnerability) (h : k ≠ k1) :
    (c.set now1 k v).get now2 k1 = c.get now2 k1 := by
  simp [VulnerabilityCache.get, VulnerabilityCache.set,
    mapFind_mapSet_ne _ _ h]

/-! ## Fan-out lemmas -/

theorem countInFlight_append (l r : List TaskState) :
    countInFlight (l ++ r) = countInFlight l + countInFlight r := by
  induction l with
  | nil => simp [countInFlight]
  | cons t ts ih =>
      cases t
      · simp [countInFlight, ih]
      · simp [countInFlight, ih]; omega
      · simp [countInFlight, ih]

theorem countInFlight_all_finished {s : List TaskState}
    (h : ∀ t ∈ s, t = TaskState.finished) : countInFlight s = 0 := by
  induction s with
  | nil => rfl
  | cons t ts ih =>
      have ht : t = TaskState.finished := h t (List.mem_cons_self _ _)
      subst ht
      exact ih (fun t2 h2 => h t2 (List.mem_cons_of_mem _ h2))

theorem fanout_step_bound {s1 s2 : List TaskState} (h : FanoutStep s1 s2)
    (hb : countInFlight s1 ≤ semCapacity) :
    countInFlight s2 ≤ semCapacity := by
  cases h with
  | acquire l r hlt =>
      rw [countInFlight_append] at hlt ⊢
      simp only [countInFlight] at hlt ⊢
      omega
  | release l r =>
      rw [countInFlight_append] at hb ⊢
      simp only [countInFlight] at hb ⊢
      omega

/-! ## Engine fetch-path lemmas -/

theorem getImageVulnerability_hit {c : VulnerabilityCache}
    {src : String → Except String ImageVulnerability} {now : Nat}
    {uri : String} {v : ImageVulnerability} (h : c.get now uri = some v) :
    getImageVulnerability c src now uri = (Except.ok v, c, 0) := by
  simp [getImageVulnerability, h]

theorem getImageVulnerability_miss_ok {c : VulnerabilityCache}
    {src : String → Except String ImageVulnerability} {now : Nat}
    {uri : String} {v : ImageVulnerability} (hc : c.get now uri = none)
    (hs : src uri = Except.ok v) :
    getImageVulnerability c src now uri =
      (Except.ok v, c.set now uri v, 1) := by
  simp [getImageVulnerability, hc, hs]

theorem getImageVulnerability_miss_err {c : VulnerabilityCache}
    {src : String → Except String ImageVulnerability} {now : Nat}
    {uri : String} {msg : String} (hc : c.get now uri = none)
    (hs : src uri = Except.error msg) :
    getImageVulnerability c src now uri = (Except.error msg, c, 1) := by
  simp [getImageVulnerability, hc, hs]

theorem collectStep_err {src : String → Except String ImageVulnerability}
    {now : Nat} {acc : List (String × ImageVulnerabilityData)}
    {c : VulnerabilityCache} {img : ImageInfo} {msg : String}
    (hc : c.get now img.uri = none) (hs : src img.uri = Except.error msg) :
    collectStep src now (acc, c) img = (acc, c) := by
  simp [collectStep, getImageVulnerability_miss_err hc hs]

theorem collectStep_ok {src : String → Except String ImageVulnerability}
    {now : Nat} {acc : List (String × ImageVulnerabilityData)}
    {c : VulnerabilityCache} {img : ImageInfo}
    (h : ∃ v, src img.uri = Except.ok v) :
    ∃ w c2, collectStep src now (acc, c) img = (mapSet acc img.uri w, c2) := by
  obtain ⟨v, hv⟩ := h
  cases hget : c.get now img.uri with
  | some cv =>
      exact ⟨⟨cv, img⟩, c, by simp [collectStep, getImageVulnerability_hit hget]⟩
  | none =>
      exact ⟨⟨v, img⟩, c.set now img.uri v,
        by simp [collectStep, getImageVulnerability_miss_ok hget hv]⟩

theorem collectStep_cache_other {src : String → Except String ImageVulnerability}
    {now : Nat} {acc : List (String × ImageVulnerabilityData)}
    {c : VulnerabilityCache} {img : ImageInfo} {u : String}
    (h : img.uri ≠ u) :
    ((collectStep src now (acc, c) img).2).get now u = c.get now u := by
  cases hget : c.get now img.uri with
  | some cv => simp [collectStep, getImageVulnerability_hit hget]
  | none =>
      cases hs : src img.uri with
      | error msg => simp [collectStep, getImageVulnerability_miss_err hget hs]
      | ok v =>
          simp [collectStep, getImageVulnerability_miss_ok hget hs,
            get_set_ne _ _ _ _ h]

/-! ## Cycle fold lemmas -/

theorem foldl_collectStep_allOk
    (src : String → Except String ImageVulnerability) (now : Nat) :
    ∀ (images : List ImageInfo)
      (acc : List (String × ImageVulnerabilityData)) (c : VulnerabilityCache),
      (images.map ImageInfo.uri).Nodup →
      (∀ x ∈ images, mapFind acc x.uri = none) →
      (∀ x ∈ images, ∃ v, src x.uri = Except.ok v) →
      (images.foldl (collectStep src now) (acc, c)).1.length =
          acc.length + images.length ∧
        ∀ u, u ∉ images.map ImageInfo.uri →
          mapFind (images.foldl (collectStep src now) (acc, c)).1 u =
            mapFind acc u := by
  intro images
  induction images with
  | nil => intro acc c _ _ _; exact ⟨by simp, fun u _ => rfl⟩
  | cons img rest ih =>
      intro acc c hnd hacc hok
      rw [List.map_cons, List.nodup_cons] at hnd
      obtain ⟨w, c2, hstep⟩ :=
        @collectStep_ok src now acc c img (hok img (List.mem_cons_self _ _))
      have huri : ∀ x ∈ rest, x.uri ≠ img.uri := by
        intro x hx hc
        exact hnd.1 (hc ▸ List.mem_map_of_mem ImageInfo.uri hx)
      have hacc2 : ∀ x ∈ rest, mapFind (mapSet acc img.uri w) x.uri = none := by
        intro x hx
        rw [mapFind_mapSet_ne _ _ (fun hc => huri x hx hc.symm)]
        exact hacc x (List.mem_cons_of_mem _ hx)
      have hlen : (mapSet acc img.uri w).length = acc.length + 1 :=
        length_mapSet_of_find_none _ _ (hacc img (List.mem_cons_self _ _))
      obtain ⟨ihlen, ihfind⟩ := ih (mapSet acc img.uri w) c2 hnd.2 hacc2
        (fun x hx => hok x (List.mem_cons_of_mem _ hx))
      constructor
      · rw [List.foldl_cons, hstep, ihlen, hlen]
        simp [Nat.add_assoc, Nat.add_comm 1 rest.length]
      · intro u hu
        rw [List.map_cons, List.mem_cons] at hu
        push_neg at hu
        rw [List.foldl_cons, hstep, ihfind u hu.2,
          mapFind_mapSet_ne _ _ (fun hc => hu.1 hc.symm)]

theorem foldl_collectStep_oneFail
    (src : String → Except String ImageVulnerability) (now : Nat)
    (u msg : String) (hfail : src u = Except.error msg) :
    ∀ (images : List ImageInfo)
      (acc : List (String × ImageVulnerabilityData)) (c : VulnerabilityCache),
      (images.map ImageInfo.uri).Nodup →
      (∀ x ∈ images, mapFind acc x.uri = none) →
      u ∈ images.map ImageInfo.uri →
      c.get now u = none →
      (∀ s ∈ images.map ImageInfo.uri, s ≠ u → ∃ v, src s = Except.ok v) →
      (images.foldl (collectStep src now) (acc, c)).1.length + 1 =
          acc.length + images.length ∧
        mapFind (images.foldl (collectStep src now) (acc, c)).1 u = none := by
  intro images
  induction images with
  | nil => intro acc c _ _ hmem; simp at hmem
  | cons img rest ih =>
      intro acc c hnd hacc hmem hcache hok
      rw [List.map_cons, List.nodup_cons] at hnd
      by_cases himg : img.uri = u
      · have hstep : collectStep src now (acc, c) img = (acc, c) :=
          collectStep_err (himg ▸ hcache) (himg ▸ hfail)
        have hnomem : u ∉ rest.map ImageInfo.uri := himg ▸ hnd.1
        obtain ⟨hlen, hfind⟩ := foldl_collectStep_allOk src now rest acc c
          hnd.2 (fun x hx => hacc x (List.mem_cons_of_mem _ hx))
          (fun x hx => hok x.uri
            (List.mem_cons_of_mem _ (List.mem_map_of_mem ImageInfo.uri hx))
            (fun hc => hnomem (hc ▸ List.mem_map_of_mem ImageInfo.uri hx)))
        constructor
        · rw [List.foldl_cons, hstep, hlen]
          simp only [List.length_cons]
          omega
        · rw [List.foldl_cons, hstep, hfind u hnomem]
          exact himg ▸ hacc img (List.mem_cons_self _ _)
      · have hmem2 : u ∈ rest.map ImageInfo.uri := by
          rw [List.map_cons, List.mem_cons] at hmem
          exact hmem.resolve_left (fun hc => himg hc.symm)
        obtain ⟨w, c2, hstep⟩ :=
          @collectStep_ok src now acc c img
            (hok img.uri (by rw [List.map_cons]; exact List.mem_cons_self _ _)
              himg)
        have hcache2 : c2.get now u = none := by
          have h5 := @collectStep_cache_other src now acc c img u himg
          rw [hstep] at h5
          exact h5.trans hcache
        have huri : ∀ x ∈ rest, x.uri ≠ img.uri := by
          intro x hx hc
          exact hnd.1 (hc ▸ List.mem_map_of_mem ImageInfo.uri hx)
        have hacc2 : ∀ x ∈ rest, mapFind (mapSet acc img.uri w) x.uri = none := by
          intro x hx
          rw [mapFind_mapSet_ne _ _ (fun hc => huri x hx hc.symm)]
          exact hacc x (List.mem_cons_of_mem _ hx)
        have hlen : (mapSet acc img.uri w).length = acc.length + 1 :=
          length_mapSet_of_find_none _ _ (hacc img (List.mem_cons_self _ _))
        obtain ⟨ihlen, ihfind⟩ := ih (mapSet acc img.uri w) c2 hnd.2 hacc2
          hmem2 hcache2
          (fun s hs hsne =>
            hok s (List.mem_cons_of_mem _ hs) hsne)
        constructor
        · rw [List.foldl_cons, hstep, ihlen, hlen]
          simp [Nat.add_assoc, Nat.add_comm 1 rest.length]
        · rw [List.foldl_cons, hstep]
          exact ihfind

/-- The key-integrity invariant on a snapshot map: every value's
`imageURI` echoes its map key. -/
def goodData (d : List (String × ImageVulnerabilityData)) : Prop :=
  ∀ k x, mapFind d k = some x → x.imageVulnerability.imageURI = k

/-- The key-integrity invariant on the cache: every entry's data carries the
URI it is stored under. -/
def goodCache (c : VulnerabilityCache) : Prop :=
  ∀ k entry, mapFind c.cache k = some entry → entry.data.imageURI = k

theorem goodCache_get {c : VulnerabilityCache} (hc : goodCache c)
    {now : Nat} {k : String} {v : ImageVulnerability}
    (h : c.get now k = some v) : v.imageURI = k := by
  unfold VulnerabilityCache.get at h
  cases hf : mapFind c.cache k with
  | none => rw [hf] at h; exact absurd h (by simp)
  | some entry =>
      rw [hf] at h
      by_cases hexp : now > entry.expiresAt
      · simp [hexp] at h
      · simp [hexp] at h
        exact h ▸ hc k entry hf

theorem goodData_mapSet {d : List (String × ImageVulnerabilityData)}
    (hd : goodData d) {k : String} {x : ImageVulnerabilityData}
    (hx : x.imageVulnerability.imageURI = k) : goodData (mapSet d k x) := by
  intro k1 x1 h
  rw [mapFind_mapSet] at h
  by_cases hk : k = k1
  · simp [hk] at h
    subst h
    exact hk ▸ hx
  · rw [if_neg hk] at h
    exact hd k1 x1 h

theorem goodCache_set {c : VulnerabilityCache} (hc : goodCache c) {now : Nat}
    {k : String} {v : ImageVulnerability} (hv : v.imageURI = k) :
    goodCache (c.set now k v) := by
  intro k1 entry h
  unfold VulnerabilityCache.set at h
  simp only at h
  rw [mapFind_mapSet] at h
  by_cases hk : k = k1
  · simp [hk] at h
    subst h
    exact hk ▸ hv
  · rw [if_neg hk] at h
    exact hc k1 entry h

theorem foldl_collectStep_good
    (src : String → Except String ImageVulnerability) (now : Nat)
    (hsrc : ∀ uri v, src uri = Except.ok v → v.imageURI = uri) :
    ∀ (images : List ImageInfo)
      (acc : List (String × ImageVulnerabilityData)) (c : VulnerabilityCache),
      goodData acc → goodCache c →
      goodData (images.foldl (collectStep src now) (acc, c)).1 ∧
        goodCache (images.foldl (collectStep src now) (acc, c)).2 := by
  intro images
  induction images with
  | nil => intro acc c hd hc; exact ⟨hd, hc⟩
  | cons img rest ih =>
      intro acc c hd hc
      rw [List.foldl_cons]
      cases hget : c.get now img.uri with
      | some cv =>
          have hstep : collectStep src now (acc, c) img =
              (mapSet acc img.uri ⟨cv, img⟩, c) := by
            simp [collectStep, getImageVulnerability_hit hget]
          rw [hstep]
          exact ih _ _ (goodData_mapSet hd (goodCache_get hc hget)) hc
      | none =>
          cases hs : src img.uri with
          | error msg =>
              rw [collectStep_err hget hs]
              exact ih _ _ hd hc
          | ok v =>
              have hstep : collectStep src now (acc, c) img =
                  (mapSet acc img.uri ⟨v, img⟩, c.set now img.uri v) := by
                simp [collectStep, getImageVulnerability_miss_ok hget hs]
              rw [hstep]
              exact ih _ _ (goodData_mapSet hd (hsrc _ _ hs))
                (goodCache_set hc (hsrc _ _ hs))

/-! ## Trace lemmas -/

theorem runCycle_lastCollectionTime (e : Engine) (inp : CycleInput) :
    (runCycle e inp).lastCollectionTime = e.lastCollectionTime ∨
      (runCycle e inp).lastCollectionTime = inp.now := by
  cases hd : inp.discover with
  | error err => exact Or.inl (by simp [runCycle, collectVulnerabilities, hd])
  | ok images => exact Or.inr (by simp [runCycle, collectVulnerabilities, hd])

theorem chain_le_of_le {a b : Nat} {l : List Nat}
    (h : List.Chain (fun x y => x ≤ y) a l) (hba : b ≤ a) :
    List.Chain (fun x y => x ≤ y) b l := by
  cases h with
  | nil => exact List.Chain.nil
  | cons hac hcl => exact List.Chain.cons (le_trans hba hac) hcl

theorem engineTrace_chain :
    ∀ (inputs : List CycleInput) (e : Engine),
      List.Chain (fun x y => x ≤ y) e.lastCollectionTime
        (inputs.map CycleInput.now) →
      List.Chain (fun x y => x ≤ y) e.lastCollectionTime
        ((engineTrace e inputs).map Engine.lastCollectionTime) := by
  intro inputs
  induction inputs with
  | nil => intro e _; exact List.Chain.nil
  | cons inp rest ih =>
      intro e h
      rw [List.map_cons] at h
      cases h with
      | cons h1 h2 =>
          have hstep := runCycle_lastCollectionTime e inp
          have hle : (runCycle e inp).lastCollectionTime ≤ inp.now := by
            rcases hstep with h3 | h3
            · exact h3 ▸ h1
            · exact le_of_eq h3
          have hchain := ih (runCycle e inp) (chain_le_of_le h2 hle)
          have hup : e.lastCollectionTime ≤
              (runCycle e inp).lastCollectionTime := by
            rcases hstep with h3 | h3
            · exact le_of_eq h3.symm
            · exact h3 ▸ h1
          exact List.Chain.cons hup hchain

theorem filter_self_filter {α : Type} (p : α → Bool) (l : List α) :
    (l.filter p).filter p = l.filter p := by
  induction l with
  | nil => rfl
  | cons a rest ih =>
      cases hp : p a <;> simp [List.filter_cons, hp, ih]

theorem filter_neg_filter {α : Type} (p : α → Bool) (l : List α) :
    (l.filter (fun a => !(p a))).filter p = [] := by
  induction l with
  | nil => rfl
  | cons a rest ih =>
      cases hp : p a <;> simp [List.filter_cons, hp, ih]

theorem countInFlight_replicate (n : Nat) :
    countInFlight (List.replicate n TaskState.notStarted) = 0 := by
  induction n with
  | zero => rfl
  | succ m ih => simpa [List.replicate, countInFlight] using ih

theorem fanout_reach_bound {s0 s : List TaskState}
    (h : Relation.ReflTransGen FanoutStep s0 s)
    (h0 : countInFlight s0 ≤ semCapacity) :
    countInFlight s ≤ semCapacity := by
  induction h with
  | refl => exact h0
  | tail _ h2 ih => exact fanout_step_bound h2 ih

/-! ## Concrete data for witnesses -/

/-- A concrete scan result used by the witnesses. -/
def vulnW : ImageVulnerability :=
  { imageURI := "img", repository := "repo", tag := "v1",
    vulnerabilities := [("HIGH", 1)], totalCount := 1,
    scanStatus := "COMPLETE", lastScanTime := none, findings := [] }

/-- A concrete scan result for image "a" used by the witnesses. -/
def vulnA : ImageVulnerability :=
  { imageURI := "a", repository := "repo", tag := "v1",
    vulnerabilities := [("LOW", 2)], totalCount := 2,
    scanStatus := "COMPLETE", lastScanTime := none, findings := [] }

/-- A concrete discovered image used by the witnesses. -/
def imgA : ImageInfo :=
  { uri := "a", namespaceName := "prod", workload := "app",
    workloadType := "Deployment" }

/-- A second concrete discovered image used by the witnesses. -/
def imgB : ImageInfo :=
  { uri := "b", namespaceName := "prod", workload := "api",
    workloadType := "StatefulSet" }

/-- A concrete vulnerability source used by the witnesses: succeeds for image
"a", fails for every other image. -/
def srcW : String → Except String ImageVulnerability :=
  fun s => if s = "a" then Except.ok vulnA else Except.error "scan failed"

/-! ## The claims -/

/-- C1: if Image Source discovery (`DiscoverImages`) returns an error, the
collection cycle (`collectVulnerabilities`) returns that error, and for every
prior state both the vulnerability-data map and the `lastCollectionTime`
returned by `GetVulnerabilityData` after the failed cycle equal their values
before it. -/
theorem c1_discovery_failure_preserves_snapshot (e : Engine)
    (src : String → Except String ImageVulnerability) (now : Nat)
    (err : String) (discover : Except String (List ImageInfo))
    (h : discover = Except.error err) :
    collectVulnerabilities e discover src now = (e, some err) ∧
      GetVulnerabilityData (collectVulnerabilities e discover src now).1 =
        GetVulnerabilityData e := by
  subst h
  exact ⟨rfl, rfl⟩

/-- Witness for C1 at a concrete failing discovery. -/
theorem c1_witness :
    collectVulnerabilities NewEngine (Except.error "discovery down")
        (fun _ => Except.error "unused") 5 = (NewEngine, some "discovery down") ∧
      GetVulnerabilityData
          (collectVulnerabilities NewEngine (Except.error "discovery down")
            (fun _ => Except.error "unused") 5).1 =
        GetVulnerabilityData NewEngine :=
  c1_discovery_failure_preserves_snapshot NewEngine
    (fun _ => Except.error "unused") 5 "discovery down"
    (Except.error "discovery down") rfl

/-- C3: for every image URI, two sequential invocations of the per-image fetch
path within the TTL window invoke the Vulnerability Source at most once: if
the first call is a cache miss that fetches successfully and stores the
result, the second call is served from the cache, performs no source call
(call count 0), and returns the very same result. -/
theorem c3_cache_hit_suppresses_fetch (c : VulnerabilityCache)
    (src : String → Except String ImageVulnerability) (now1 now2 : Nat)
    (uri : String) (v : ImageVulnerability)
    (hc : c.get now1 uri = none) (hs : src uri = Except.ok v)
    (httl : now2 ≤ now1 + c.ttl) :
    getImageVulnerability c src now1 uri =
        (Except.ok v, c.set now1 uri v, 1) ∧
      getImageVulnerability (c.set now1 uri v) src now2 uri =
        (Except.ok v, c.set now1 uri v, 0) := by
  refine ⟨getImageVulnerability_miss_ok hc hs, ?_⟩
  have hget : (c.set now1 uri v).get now2 uri = some v := by
    rw [get_set_self, if_neg (Nat.not_lt.2 httl)]
  exact getImageVulnerability_hit hget

/-- Witness for C3: fetch image "a" at instant 0, fetch it again at instant 7;
the second fetch is served from the cache with zero source calls. -/
theorem c3_witness :
    getImageVulnerability NewVulnerabilityCache srcW 0 "a" =
        (Except.ok vulnA, NewVulnerabilityCache.set 0 "a" vulnA, 1) ∧
      getImageVulnerability (NewVulnerabilityCache.set 0 "a" vulnA) srcW 7
          "a" =
        (Except.ok vulnA, NewVulnerabilityCache.set 0 "a" vulnA, 0) :=
  c3_cache_hit_suppresses_fetch NewVulnerabilityCache srcW 0 7 "a" vulnA rfl
    rfl (by decide)

/-- C4: a cache entry stored by `Set` at `t0` with TTL `T` is a hit at every
instant strictly before `t0+T` and a miss at every instant strictly after
`t0+T`; a `Get` that observes the expired entry mutates nothing, the entry
stays physically present in the map, and a `Cleanup` pass after expiry removes
it. -/
theorem c4_set_get_expiry (c : VulnerabilityCache) (t0 : Nat) (k : String)
    (v : ImageVulnerability) (now1 now2 now3 : Nat)
    (hnd : (c.cache.map Prod.fst).Nodup)
    (h1 : now1 < t0 + c.ttl) (h2 : now2 > t0 + c.ttl) (h3 : now3 > t0 + c.ttl) :
    (c.set t0 k v).get now1 k = some v ∧
      (c.set t0 k v).get now2 k = none ∧
      (c.set t0 k v).getS now2 k = (none, c.set t0 k v) ∧
      mapFind (c.set t0 k v).cache k = some ⟨v, t0 + c.ttl⟩ ∧
      mapFind ((c.set t0 k v).cleanup now3).cache k = none := by
  have hmiss : (c.set t0 k v).get now2 k = none := by
    rw [get_set_self, if_pos h2]
  refine ⟨?_, hmiss, ?_, mapFind_mapSet_self _ _ _, ?_⟩
  · rw [get_set_self, if_neg (by omega)]
  · show ((c.set t0 k v).get now2 k, c.set t0 k v) = (none, c.set t0 k v)
    rw [hmiss]
  · have hnd2 : ((mapSet c.cache k ⟨v, t0 + c.ttl⟩).map Prod.fst).Nodup :=
      nodup_keys_mapSet k _ hnd
    show mapFind ((mapSet c.cache k ⟨v, t0 + c.ttl⟩).filter
      (fun p => !(decide (now3 > p.2.expiresAt)))) k = none
    rw [mapFind_filter_nodup _ _ _ hnd2, mapFind_mapSet_self]
    simp [h3]

/-- Witness for C4 at a concrete entry and concrete instants around expiry. -/
theorem c4_witness :
    (NewVulnerabilityCache.set 0 "img" vulnW).get 5 "img" = some vulnW ∧
      (NewVulnerabilityCache.set 0 "img" vulnW).get 1800000000001 "img" =
        none ∧
      (NewVulnerabilityCache.set 0 "img" vulnW).getS 1800000000001 "img" =
        (none, NewVulnerabilityCache.set 0 "img" vulnW) ∧
      mapFind (NewVulnerabilityCache.set 0 "img" vulnW).cache "img" =
        some ⟨vulnW, 0 + NewVulnerabilityCache.ttl⟩ ∧
      mapFind (((NewVulnerabilityCache.set 0 "img" vulnW).cleanup
          1800000000001)).cache "img" = none :=
  c4_set_get_expiry NewVulnerabilityCache 0 "img" vulnW 5 1800000000001
    1800000000001 List.nodup_nil (by decide) (by decide) (by decide)

/-- C6: for every image whose per-cycle fetch fails, the cache is left exactly
as it was: the fetch path returns the failure with the cache component
unchanged, so no entry is created, removed or modified for any key. -/
theorem c6_failed_fetch_leaves_cache (c : VulnerabilityCache)
    (src : String → Except String ImageVulnerability) (now : Nat)
    (uri msg : String) (hc : c.get now uri = none)
    (hs : src uri = Except.error msg) :
    getImageVulnerability c src now uri = (Except.error msg, c, 1) ∧
      ∀ k, mapFind ((getImageVulnerability c src now uri).2.1).cache k =
        mapFind c.cache k := by
  refine ⟨getImageVulnerability_miss_err hc hs, ?_⟩
  intro k
  rw [getImageVulnerability_miss_err hc hs]

/-- Witness for C6: a failed fetch of image "b" returns the error with the
cache untouched. -/
theorem c6_witness :
    getImageVulnerability NewVulnerabilityCache srcW 5 "b" =
        (Except.error "scan failed", NewVulnerabilityCache, 1) ∧
      ∀ k, mapFind ((getImageVulnerability NewVulnerabilityCache srcW 5
          "b").2.1).cache k = mapFind NewVulnerabilityCache.cache k :=
  c6_failed_fetch_leaves_cache NewVulnerabilityCache srcW 5 "b" "scan failed"
    rfl rfl

/-- C2: in a cycle whose discovery returns `N` images with pairwise-distinct
URIs, where the Vulnerability Source fails for exactly one of those URIs
(which has no usable cache entry) and succeeds for all others,
`collectVulnerabilities` reports no error and publishes a snapshot with
exactly `N−1` entries, none of them under the failed URI. -/
theorem c2_single_failure_isolation (e : Engine) (images : List ImageInfo)
    (src : String → Except String ImageVulnerability) (now : Nat)
    (u msg : String)
    (hnd : (images.map ImageInfo.uri).Nodup)
    (hmem : u ∈ images.map ImageInfo.uri)
    (hcache : e.cache.get now u = none)
    (hfail : src u = Except.error msg)
    (hok : ∀ s ∈ images.map ImageInfo.uri, s ≠ u →
      ∃ v, src s = Except.ok v) :
    (collectVulnerabilities e (Except.ok images) src now).2 = none ∧
      (collectVulnerabilities e
          (Except.ok images) src now).1.vulnerabilityData.length + 1 =
        images.length ∧
      mapFind (collectVulnerabilities e
          (Except.ok images) src now).1.vulnerabilityData u = none := by
  obtain ⟨hlen, hfind⟩ := foldl_collectStep_oneFail src now u msg hfail images
    [] e.cache hnd (fun x _ => rfl) hmem hcache hok
  refine ⟨rfl, ?_, ?_⟩
  · show (images.foldl (collectStep src now) ([], e.cache)).1.length + 1 =
      images.length
    simpa using hlen
  · exact hfind

/-- Witness for C2: two distinct images, the source fails for "b" only. -/
theorem c2_witness :
    (collectVulnerabilities NewEngine (Except.ok [imgA, imgB]) srcW 5).2 =
        none ∧
      (collectVulnerabilities NewEngine
          (Except.ok [imgA, imgB]) srcW 5).1.vulnerabilityData.length + 1 =
        [imgA, imgB].length ∧
      mapFind (collectVulnerabilities NewEngine
          (Except.ok [imgA, imgB]) srcW 5).1.vulnerabilityData "b" = none :=
  c2_single_failure_isolation NewEngine [imgA, imgB] srcW 5 "b" "scan failed"
    (by simp [imgA, imgB])
    (by simp [imgA, imgB])
    rfl
    rfl
    (by
      intro s hs hne
      simp [imgA, imgB] at hs
      rcases hs with h | h
      · exact ⟨vulnA, by rw [h]; rfl⟩
      · exact absurd h hne)

/-- C5: assuming every result the Vulnerability Source returns for a requested
URI echoes that URI, and every cache entry echoes its key, a successful
publish yields a snapshot in which every value's `imageURI` equals its map
key, and the cache keeps the same integrity — whether each result came from
the cache or from a fresh fetch. -/
theorem c5_key_integrity (e : Engine) (images : List ImageInfo)
    (src : String → Except String ImageVulnerability) (now : Nat)
    (hsrc : ∀ uri v, src uri = Except.ok v → v.imageURI = uri)
    (hcache : goodCache e.cache) :
    goodData (collectVulnerabilities e
        (Except.ok images) src now).1.vulnerabilityData ∧
      goodCache (collectVulnerabilities e (Except.ok images) src now).1.cache := by
  have h := foldl_collectStep_good src now hsrc images [] e.cache
    (fun k x hx => by simp [mapFind] at hx) hcache
  exact ⟨h.1, h.2⟩

/-- Witness for C5 at a concrete engine, image list and source. -/
theorem c5_witness :
    goodData (collectVulnerabilities NewEngine
        (Except.ok [imgA, imgB]) srcW 5).1.vulnerabilityData ∧
      goodCache (collectVulnerabilities NewEngine
        (Except.ok [imgA, imgB]) srcW 5).1.cache :=
  c5_key_integrity NewEngine [imgA, imgB] srcW 5
    (by
      intro uri v h
      unfold srcW at h
      by_cases hu : uri = "a"
      · rw [if_pos hu] at h
        injection h with h2
        rw [← h2, hu]
        rfl
      · rw [if_neg hu] at h
        exact absurd h (by simp))
    (by
      intro k entry h
      simp [NewEngine, NewVulnerabilityCache, mapFind] at h)

/-- C7: across every sequence of cycles whose wall-clock instants are
non-decreasing (and not earlier than the engine's current
`lastCollectionTime`), the timestamps returned by `GetVulnerabilityData`
after each cycle form a non-decreasing chain: any two successive reads see
`t1 ≤ t2`. -/
theorem c7_collectedAt_monotone (e : Engine) (inputs : List CycleInput)
    (h : List.Chain (fun x y => x ≤ y) (GetVulnerabilityData e).2
      (inputs.map CycleInput.now)) :
    List.Chain (fun x y => x ≤ y) (GetVulnerabilityData e).2
      ((engineTrace e inputs).map (fun e2 => (GetVulnerabilityData e2).2)) := by
  have h2 := engineTrace_chain inputs e h
  simpa [GetVulnerabilityData] using h2

/-- Witness for C7: a failing cycle followed by a successful one, at
increasing instants. -/
theorem c7_witness :
    List.Chain (fun x y => x ≤ y) (GetVulnerabilityData NewEngine).2
      ((engineTrace NewEngine
          [⟨Except.error "discovery down", srcW, 3⟩,
           ⟨Except.ok [imgA], srcW, 5⟩]).map
        (fun e2 => (GetVulnerabilityData e2).2)) :=
  c7_collectedAt_monotone NewEngine
    [⟨Except.error "discovery down", srcW, 3⟩, ⟨Except.ok [imgA], srcW, 5⟩]
    (List.Chain.cons (by decide) (List.Chain.cons (by decide) List.Chain.nil))

/-- C8: running `cleanup` twice in succession with no intervening `Set`
deletes each expired entry exactly once: the first run keeps exactly the
entries that are not expired, the second run changes nothing, and `Stats`
immediately after a cleanup reports zero expired-but-present entries. -/
theorem c8_cleanup_idempotent (c : VulnerabilityCache) (now : Nat) :
    (c.cleanup now).cleanup now = c.cleanup now ∧
      (∀ k e, (k, e) ∈ (c.cleanup now).cache ↔
        (k, e) ∈ c.cache ∧ ¬ now > e.expiresAt) ∧
      ((c.cleanup now).stats now).2 = 0 := by
  refine ⟨?_, ?_, ?_⟩
  · show ({ cache := ((c.cache.filter _).filter _), ttl := c.ttl } :
      VulnerabilityCache) = { cache := c.cache.filter _, ttl := c.ttl }
    rw [filter_self_filter]
  · intro k e
    simp [VulnerabilityCache.cleanup, List.mem_filter]
  · show ((c.cache.filter (fun p => !(decide (now > p.2.expiresAt)))).filter
      (fun p => decide (now > p.2.expiresAt))).length = 0
    rw [filter_neg_filter]
    rfl

/-- C9: from the initial state of a cycle's fan-out, every reachable scheduler
state has at most `semCapacity = 10` vulnerability-source calls in flight
(the capacity of the worker semaphore in `collectVulnerabilities`), and in
any state where `wg.Wait()` lets the cycle proceed to publication every
per-image work unit has completed, so none is in flight. -/
theorem c9_bounded_fanout (n : Nat) (s : List TaskState)
    (h : FanoutReachable n s) :
    countInFlight s ≤ semCapacity ∧
      (publishEnabled s → countInFlight s = 0) := by
  refine ⟨?_, fun hp => countInFlight_all_finished hp⟩
  exact fanout_reach_bound h (by rw [countInFlight_replicate]; exact Nat.zero_le _)

/-- Witness for C9: a reachable state of a 2-image fan-out with one fetch in
flight. -/
theorem c9_witness :
    countInFlight [TaskState.inFlight, TaskState.notStarted] ≤ semCapacity ∧
      (publishEnabled [TaskState.inFlight, TaskState.notStarted] →
        countInFlight [TaskState.inFlight, TaskState.notStarted] = 0) :=
  c9_bounded_fanout 2 [TaskState.inFlight, TaskState.notStarted]
    (Relation.ReflTransGen.single
      (FanoutStep.acquire [] [TaskState.notStarted] (by decide)))

/-- C10: the expiry boundary is exclusive at the exact expiry instant — a
`Get` at a time equal to `expiresAt` is still a hit (expiry is the strict
`now is after expiresAt` test), `cleanup` at that instant does not delete the
entry, and the entry is not among the entries `Stats` counts as expired at
that instant. -/
theorem c10_expiry_boundary_exclusive (c : VulnerabilityCache) (k : String)
    (e : CacheEntry) (hnd : (c.cache.map Prod.fst).Nodup)
    (hf : mapFind c.cache k = some e) :
    c.get e.expiresAt k = some e.data ∧
      mapFind ((c.cleanup e.expiresAt).cache) k = some e ∧
      (k, e) ∉ c.cache.filter (fun p => decide (e.expiresAt > p.2.expiresAt)) ∧
      (c.stats e.expiresAt).2 =
        (c.cache.filter (fun p => decide (e.expiresAt > p.2.expiresAt))).length := by
  refine ⟨?_, ?_, ?_, rfl⟩
  · show (match mapFind c.cache k with
      | none => none
      | some entry =>
          if e.expiresAt > entry.expiresAt then none else some entry.data) =
      some e.data
    rw [hf]
    simp
  · show mapFind (c.cache.filter
      (fun p => !(decide (e.expiresAt > p.2.expiresAt)))) k = some e
    rw [mapFind_filter_nodup _ _ _ hnd, hf]
    simp
  · intro hmem
    have h2 := (List.mem_filter.1 hmem).2
    simp at h2

/-- Witness for C10 at a concrete one-entry cache, probed exactly at the
entry's expiry instant. -/
theorem c10_witness :
    VulnerabilityCache.get ⟨[("img", ⟨vulnW, 100⟩)], 30⟩ 100 "img" =
        some vulnW ∧
      mapFind ((VulnerabilityCache.cleanup
          ⟨[("img", ⟨vulnW, 100⟩)], 30⟩ 100).cache) "img" =
        some ⟨vulnW, 100⟩ ∧
      ("img", (⟨vulnW, 100⟩ : CacheEntry)) ∉
        List.filter (fun p => decide (100 > p.2.expiresAt))
          [("img", (⟨vulnW, 100⟩ : CacheEntry))] ∧
      (VulnerabilityCache.stats ⟨[("img", ⟨vulnW, 100⟩)], 30⟩ 100).2 =
        (List.filter (fun p => decide (100 > p.2.expiresAt))
          [("img", (⟨vulnW, 100⟩ : CacheEntry))]).length :=
  c10_expiry_boundary_exclusive ⟨[("img", ⟨vulnW, 100⟩)], 30⟩ "img"
    ⟨vulnW, 100⟩ (by simp) rfl

end VulnRelay
